import Mathlib

/-!
Verification of `src/com/facebook/buck/python/pex.py` (the buck PEX
packaging tool) against its natural-language specification.

The Python script is shallowly embedded: Python strings become `List Char`
(`PyStr`), the filesystem becomes an explicit read-only structure `FS`
(mapping paths to symlink targets and file contents), the unbounded
`while os.path.islink` loop becomes a fuel-indexed function returning
`Option`, and the orchestrating `main` becomes a pure function from an
environment (CLI arguments, stdin manifest, filesystem, interpreter
introspection oracle) to an observable run result.

The external PEX-builder library (`twitter.common.python`, hosted in the
repository's `third-party/` tree but not present under `src/`) is modelled
from the spec where the spec constrains it; those definitions carry a
`Modelled from the spec:` doc comment.
-/

/-- Python strings are modelled as lists of characters. -/
abbrev PyStr := List Char

/-- Coerce a Lean string literal to the `PyStr` model. -/
def str (s : String) : PyStr := s.data

/-- Embedding of Python `p.startswith('/')`, i.e. `posixpath.isabs`. -/
def isabs : PyStr → Bool
  | [] => false
  | c :: _ => c = '/'

/-- Embedding of `file.split(os.sep)` (POSIX separator): splitting a string
on `'/'` always yields one more part than there are separators; splitting
the empty string yields `[""]`. -/
def splitSep : PyStr → List PyStr
  | [] => [[]]
  | c :: rest =>
    match splitSep rest with
    | [] => [[]]
    | p :: ps => if c = '/' then [] :: p :: ps else (c :: p) :: ps

/-- Embedding of `os.sep.join(parts)`. -/
def joinSep (parts : List PyStr) : PyStr := List.intercalate [ '/' ] parts

/-- Embedding of line 14 of pex.py: `BUCK_ROOT = os.sep.join(__file__.split(os.sep)[:-6])`,
the repository root obtained by dropping the last six path components of
the script's own location. -/
def BUCK_ROOT (file : PyStr) : PyStr :=
  let parts := splitSep file
  joinSep (parts.take (parts.length - 6))

/-- Splits a path at its last `'/'`: returns `(head, tail)` where `head` is
`p[:p.rfind('/')+1]` (everything up to and including the last slash, empty
when there is no slash) and `tail` is the slash-free final component. -/
def splitAtLastSlash : PyStr → PyStr × PyStr
  | [] => ([], [])
  | c :: rest =>
    let q := splitAtLastSlash rest
    if q.1 = [] then
      if c = '/' then ([ '/' ], q.2) else ([], c :: q.2)
    else
      (c :: q.1, q.2)

/-- Embedding of Python `head.rstrip('/')`: removes the maximal all-slash
suffix. -/
def rstripSlash : PyStr → PyStr
  | [] => []
  | c :: rest =>
    let r := rstripSlash rest
    if r = [] ∧ c = '/' then [] else c :: r

/-- Embedding of `posixpath.dirname`: take everything up to the last slash,
then strip trailing slashes unless the head is empty or consists only of
slashes. -/
def dirname (p : PyStr) : PyStr :=
  let head := (splitAtLastSlash p).1
  if head ≠ [] ∧ ¬ (head.all (fun c => c = '/')) then rstripSlash head else head

/-- Embedding of `posixpath.join(a, b)`: if `b` is absolute it replaces `a`;
otherwise `b` is appended to `a` with a separator inserted unless `a` is
empty or already ends in one. -/
def pjoin (a b : PyStr) : PyStr :=
  if isabs b then b
  else if a = [] ∨ a.getLast? = some '/' then a ++ b
  else a ++ '/' :: b

/-- The read-only filesystem view the script consults: `readlink p` is
`some target` exactly when `p` is a symbolic link (`os.path.islink`), and
`contents p` is the byte content of the regular file at `p` when it exists. -/
structure FS where
  readlink : PyStr → Option PyStr
  contents : PyStr → Option (List Nat)

/-- Embedding of `os.path.islink(src)`. -/
def islink (fs : FS) (src : PyStr) : Bool := (fs.readlink src).isSome

/-- One iteration of the loop body at line 35 of pex.py:
`src = os.path.join(os.path.dirname(src), os.readlink(src))`; identity when
`src` is not a link. -/
def linkStep (fs : FS) (src : PyStr) : PyStr :=
  match fs.readlink src with
  | some target => pjoin (dirname src) target
  | none => src

/-- Embedding of `dereference_symlinks` (pex.py lines 27-37): repeatedly
replace the final path component by its link target joined against the
containing directory, while the whole path is a symbolic link.  The Python
loop is unbounded; here it is indexed by fuel, with `none` meaning the loop
has not finished within `fuel` iterations. -/
def dereference_symlinks (fs : FS) : Nat → PyStr → Option PyStr
  | 0, src => if islink fs src then none else some src
  | fuel + 1, src =>
    if islink fs src then dereference_symlinks fs fuel (linkStep fs src)
    else some src

/-- Category tag of a registered archive entry (spec §3 `ResolvedEntry`):
modules are registered through `add_source`, resources through
`add_resource`. -/
inductive Category where
  | module
  | resource
deriving DecidableEq, Repr

/-- Metadata the orchestrator sets on the builder before building
(pex.py lines 79 and 82): the `zip_safe` flag and the `entry_point`. -/
structure PexInfo where
  zip_safe : Bool
  entry_point : PyStr
deriving DecidableEq, Repr

/-- The interpreter descriptor constructed at pex.py lines 63-67: the
executable path, the identity obtained by introspecting a binary, and the
extra-capability table mapping `(name, version)` pairs to filesystem
locations. -/
structure PythonInterpreter where
  binary : PyStr
  identity : PyStr
  extras : List ((PyStr × PyStr) × PyStr)
deriving DecidableEq, Repr

/-- Modelled from the spec: the external `PEXBuilder` (twitter-commons PEX
library, hosted under the repository's `third-party/` tree and absent from
`src/`).  Per spec §4.3 it owns build state rooted at a workspace
directory, is bound to an interpreter, carries metadata, and accumulates
registered entries tagged with destination path and category. -/
structure PEXBuilder where
  path : PyStr
  interpreter : PythonInterpreter
  info : PexInfo
  entries : List (Category × PyStr × PyStr)
deriving DecidableEq, Repr

/-- Modelled from the spec: `PEXBuilder.create(workspace_dir, interpreter)`
(§4.3) allocates fresh build state with no registered entries.  The initial
metadata values are unconstrained by the spec; the orchestrator overwrites
both before building. -/
def PEXBuilder.create (workspace : PyStr) (interpreter : PythonInterpreter) :
    PEXBuilder :=
  ⟨workspace, interpreter, ⟨false, []⟩, []⟩

/-- Modelled from the spec: a destination path escapes the workspace root
via `..` traversal (§4.3) when, scanning its components left to right and
ignoring empty and `.` components, some `..` component appears at depth
zero. -/
def escapesRoot (dst : PyStr) : Bool :=
  go 0 (splitSep dst)
where
  go : Nat → List PyStr → Bool
    | _, [] => false
    | depth, c :: cs =>
      if c = str ".." then
        match depth with
        | 0 => true
        | d + 1 => go d cs
      else if c = [] ∨ c = str "." then go depth cs
      else go (depth + 1) cs

/-- Modelled from the spec: `addModule` / `add_source` (§4.3) registers one
module entry under its destination path, rejecting (`none`) a destination
that escapes the workspace root. -/
def PEXBuilder.add_source (b : PEXBuilder) (src dst : PyStr) :
    Option PEXBuilder :=
  if escapesRoot dst then none
  else some { b with entries := b.entries ++ [(Category.module, dst, src)] }

/-- Modelled from the spec: `addResource` / `add_resource` (§4.3) registers
one resource entry under its destination path, rejecting (`none`) a
destination that escapes the workspace root. -/
def PEXBuilder.add_resource (b : PEXBuilder) (src dst : PyStr) :
    Option PEXBuilder :=
  if escapesRoot dst then none
  else some { b with entries := b.entries ++ [(Category.resource, dst, src)] }

/-- The sealed archive (spec §3): an association of destination paths to
the byte contents stored under them. -/
abbrev Archive := List (PyStr × List Nat)

/-- Reads the byte content of every registered entry from the filesystem,
failing if any source file is unreadable. -/
def readEntries (fs : FS) : List (Category × PyStr × PyStr) → Option Archive
  | [] => some []
  | (_, dst, src) :: rest =>
    match fs.contents src, readEntries fs rest with
    | some bytes, some ar => some ((dst, bytes) :: ar)
    | _, _ => none

/-- Modelled from the spec: `PEXBuilder.build(output_path)` (§4.3) seals
all currently registered entries into a single archive containing each
entry's destination path with the bytes of its source file; it fails
(`BuildError`) when a source cannot be read, leaving no partial output. -/
def PEXBuilder.build (b : PEXBuilder) (fs : FS) : Option Archive :=
  readEntries fs b.entries

/-- Dispatches a category to the registration operation the orchestrator
uses for it: pex.py line 91 calls `add_source` for modules and line 96
calls `add_resource` for resources. -/
def addCat : Category → PEXBuilder → PyStr → PyStr → Option PEXBuilder
  | Category.module => PEXBuilder.add_source
  | Category.resource => PEXBuilder.add_resource

/-- Failure modes of one run, following spec §7. -/
inductive PexError where
  | usage
  | manifestParse
  | interpreterResolution
  | symlinkLoop
  | addRejected
  | buildError
  | cleanupFailed
deriving DecidableEq, Repr

/-- Embedding of the `for dst, src in manifest[...].iteritems()` loops at
pex.py lines 85-96: each source path is first passed through
`dereference_symlinks` and then registered under its destination path. -/
def addEntries (fs : FS) (fuel : Nat) (cat : Category) :
    PEXBuilder → List (PyStr × PyStr) → Except PexError PEXBuilder
  | b, [] => Except.ok b
  | b, (dst, src) :: rest =>
    match dereference_symlinks fs fuel src with
    | none => Except.error PexError.symlinkLoop
    | some rsrc =>
      match addCat cat b rsrc dst with
      | none => Except.error PexError.addRejected
      | some b2 => addEntries fs fuel cat b2 rest

/-- The manifest read from standard input (pex.py line 53): two JSON
objects mapping destination paths to source paths. -/
structure Manifest where
  modules : List (PyStr × PyStr)
  resources : List (PyStr × PyStr)
deriving DecidableEq, Repr

/-- The environment of one invocation: the positional CLI arguments left
after option parsing, the option values (with `none` meaning the option
was not given), `sys.executable`, the parsed manifest from stdin (`none`
meaning the JSON parse fails), the filesystem, the interpreter
introspection oracle `PythonInterpreter.from_binary` (returning the
identity, or `none` when introspection fails), the script's own `__file__`
path, the scratch directory name `tempfile.mkdtemp` produces, whether the
final `shutil.rmtree` would fail, and the fuel bounding the symlink loop. -/
structure Env where
  args : List PyStr
  cli_entry_point : Option PyStr
  cli_python : Option PyStr
  sys_executable : PyStr
  stdin_manifest : Option Manifest
  fs : FS
  from_binary : PyStr → Option PyStr
  file_path : PyStr
  tmp_dir : PyStr
  rmtree_fails : Bool
  fuel : Nat

/-- The option values after `optparse` fills in defaults (pex.py lines
42-43): `--entry-point` defaults to `__main__` and `--python` defaults to
`sys.executable`. -/
structure Options where
  entry_point : PyStr
  python : PyStr
deriving DecidableEq, Repr

/-- Embedding of `parser.parse_args()` option handling. -/
def parse_options (env : Env) : Options :=
  ⟨env.cli_entry_point.getD (str "__main__"),
   env.cli_python.getD env.sys_executable⟩

/-- What the body between `mkdtemp` and the `finally` produces: the build
outcome, the interpreter descriptor handed to the builder (when its
construction succeeded) and the builder state at the moment `build` is
invoked (when the run reaches line 99). -/
structure BodyResult where
  outcome : Except PexError Archive
  interpreterUsed : Option PythonInterpreter
  builderAtBuild : Option PEXBuilder

/-- Embedding of pex.py lines 63-67: the `PythonInterpreter` constructed
from `options.python`, the identity introspected from that binary, and the
extras table forcing `('setuptools', '1.0')` to the bundled
`third-party/py/setuptools` under the repository root. -/
def mkInterpreter (env : Env) (ident : PyStr) : PythonInterpreter :=
  ⟨(parse_options env).python, ident,
   [((str "setuptools", str "1.0"),
     pjoin (BUCK_ROOT env.file_path) (str "third-party/py/setuptools"))]⟩

/-- Embedding of pex.py lines 69-82: create the builder on the scratch
directory, then set `info.zip_safe = True` and
`info.entry_point = options.entry_point`. -/
def initialBuilder (env : Env) (interpreter : PythonInterpreter) : PEXBuilder :=
  let b0 := PEXBuilder.create env.tmp_dir interpreter
  let b1 := { b0 with info := { b0.info with zip_safe := true } }
  { b1 with info := { b1.info with entry_point := (parse_options env).entry_point } }

/-- Embedding of pex.py lines 85-96: run the module loop, then the resource
loop. -/
def registerAll (env : Env) (manifest : Manifest) (b : PEXBuilder) :
    Except PexError PEXBuilder :=
  match addEntries env.fs env.fuel Category.module b manifest.modules with
  | Except.error e => Except.error e
  | Except.ok b2 => addEntries env.fs env.fuel Category.resource b2 manifest.resources

/-- Embedding of pex.py lines 59-99, the body of the `try` block: construct
the interpreter with the forced setuptools extra, create the builder on the
scratch directory, set the metadata, register all manifest entries with
symlink-normalized sources, and build. -/
def mainBody (env : Env) (manifest : Manifest) : BodyResult :=
  match env.from_binary (parse_options env).python with
  | none => ⟨Except.error PexError.interpreterResolution, none, none⟩
  | some ident =>
    match registerAll env manifest (initialBuilder env (mkInterpreter env ident)) with
    | Except.error e => ⟨Except.error e, some (mkInterpreter env ident), none⟩
    | Except.ok b4 =>
      match b4.build env.fs with
      | none =>
        ⟨Except.error PexError.buildError, some (mkInterpreter env ident), some b4⟩
      | some ar => ⟨Except.ok ar, some (mkInterpreter env ident), some b4⟩

/-- Embedding of `shutil.rmtree(tmp_dir, ignore_errors)` (pex.py line 103):
returns the error the call raises, which with `ignore_errors = true` is
never raised even when removal fails. -/
def shutil_rmtree (ignore_errors : Bool) (removal_fails : Bool) :
    Option PexError :=
  if removal_fails ∧ ¬ ignore_errors then some PexError.cleanupFailed
  else none

/-- Python `try/finally` semantics: the finally clause always runs, and an
exception it raises replaces the body's outcome; otherwise the body's
outcome stands. -/
def try_finally (body : Except PexError Archive) (fin : Option PexError) :
    Except PexError Archive :=
  match fin with
  | some e => Except.error e
  | none => body

/-- The observable result of one run of the tool. -/
structure RunResult where
  outcome : Except PexError Archive
  scratchCreated : Bool
  cleanupAttempted : Bool
  interpreterUsed : Option PythonInterpreter
  builderAtBuild : Option PEXBuilder

/-- Embedding of `main` (pex.py lines 40-103): `parser.error` aborts with a
usage error unless exactly one positional argument is given; then the
manifest is parsed from stdin; then the scratch directory is created and
the body runs under a `finally` clause that always attempts
`shutil.rmtree(tmp_dir, True)`. -/
def Pex.main (env : Env) : RunResult :=
  if env.args.length = 1 then
    match env.stdin_manifest with
    | none => ⟨Except.error PexError.manifestParse, false, false, none, none⟩
    | some manifest =>
      let body := mainBody env manifest
      ⟨try_finally body.outcome (shutil_rmtree true env.rmtree_fails),
       true, true, body.interpreterUsed, body.builderAtBuild⟩
  else
    ⟨Except.error PexError.usage, false, false, none, none⟩

/-- Embedding of the process exit status of `sys.exit(main())` (pex.py line
106): success returns `None` hence status 0; `parser.error` exits with
status 2; an uncaught exception terminates the interpreter with status 1. -/
def exitCode : Except PexError Archive → Nat
  | Except.ok _ => 0
  | Except.error PexError.usage => 2
  | Except.error _ => 1

/-- First-match association-list lookup, the access semantics of the sealed
archive's destination-path namespace. -/
def assocLookup (ar : Archive) (d : PyStr) : Option (List Nat) :=
  match ar with
  | [] => none
  | (d2, bytes) :: rest => if d2 = d then some bytes else assocLookup rest d

/-- Relation between a manifest entry `(dst, src)` and a resolved entry
`(dst, resolved_src)`: the destination is unchanged and the source has been
symlink-normalized by `dereference_symlinks`. -/
def Resolves (fs : FS) (fuel : Nat) (p q : PyStr × PyStr) : Prop :=
  q.1 = p.1 ∧ dereference_symlinks fs fuel p.2 = some q.2

/-- Tags a resolved `(dst, src)` pair with its category, producing the form
the builder stores. -/
def tagEntry (cat : Category) (q : PyStr × PyStr) : Category × PyStr × PyStr :=
  (cat, q.1, q.2)

/-- Relation between a registered entry and an archive member: same
destination path, and the archive bytes are the content of the entry's
resolved source file. -/
def ReadsTo (fs : FS) (e : Category × PyStr × PyStr) (a : PyStr × List Nat) :
    Prop :=
  a.1 = e.2.1 ∧ fs.contents e.2.2 = some a.2

/-- A filesystem with no symbolic links and no readable files. -/
def fsEmpty : FS := ⟨fun _ => none, fun _ => none⟩

/-- A filesystem whose path `a` is a symbolic link to itself: the leaf
symlink chain is cyclic. -/
def fsLoop : FS :=
  ⟨fun p => if p = str "a" then some (str "a") else none, fun _ => none⟩

/-- A filesystem with an acyclic two-link leaf chain `a -> b -> c`. -/
def fsChain : FS :=
  ⟨fun p =>
     if p = str "a" then some (str "b")
     else if p = str "b" then some (str "c")
     else none,
   fun _ => none⟩

/-- A concrete filesystem for end-to-end runs: `/s/a` is a relative
symlink to `b` (hence to `/s/b`), `/s/b` is an absolute symlink to `/t/c`,
and the regular files `/t/c` and `/m` hold one byte each. -/
def fs1 : FS :=
  ⟨fun p =>
     if p = str "/s/a" then some (str "b")
     else if p = str "/s/b" then some (str "/t/c")
     else none,
   fun p =>
     if p = str "/t/c" then some [7]
     else if p = str "/m" then some [1]
     else none⟩

/-- A concrete manifest: one module whose source sits behind the `/s/a`
symlink chain, one resource read directly from `/m`. -/
def manifest1 : Manifest :=
  ⟨[(str "app/m.py", str "/s/a")], [(str "r.txt", str "/m")]⟩

/-- A concrete full environment for a successful run over `manifest1`. -/
def env1 : Env :=
  ⟨[str "out.pex"], none, none, str "/usr/bin/python", some manifest1, fs1,
   fun _ => some (str "CPython-2.7"),
   str "/repo/src/com/facebook/buck/python/pex.py",
   str "/tmp/scratch1", false, 40⟩

/-- The archive the run over `env1` produces. -/
def archive1 : Archive := [(str "app/m.py", [7]), (str "r.txt", [1])]

/-- The interpreter descriptor the run over `env1` constructs. -/
def interp1 : PythonInterpreter :=
  ⟨str "/usr/bin/python", str "CPython-2.7",
   [((str "setuptools", str "1.0"), str "/repo/third-party/py/setuptools")]⟩

/-- The builder state at build time in the run over `env1`. -/
def builder1 : PEXBuilder :=
  ⟨str "/tmp/scratch1", interp1, ⟨true, str "__main__"⟩,
   [(Category.module, str "app/m.py", str "/t/c"),
    (Category.resource, str "r.txt", str "/m")]⟩

/-- An environment invoked with no positional argument at all. -/
def env5a : Env :=
  ⟨[], none, none, str "/usr/bin/python", some manifest1, fs1,
   fun _ => some (str "CPython-2.7"),
   str "/repo/src/com/facebook/buck/python/pex.py",
   str "/tmp/scratch2", false, 40⟩

/-- An environment invoked with two positional arguments. -/
def env5b : Env :=
  ⟨[str "out.pex", str "extra"], none, none, str "/usr/bin/python",
   some manifest1, fs1, fun _ => some (str "CPython-2.7"),
   str "/repo/src/com/facebook/buck/python/pex.py",
   str "/tmp/scratch3", false, 40⟩

/-- A minimal interpreter descriptor for exercising the builder alone. -/
def interp0 : PythonInterpreter := ⟨str "/usr/bin/python", str "id", []⟩

/-- What claim C1 asserts of a successful run on manifest `m` producing
archive `ar`: the builder at build time holds exactly the manifest entries,
modules registered via `add_source` and resources via `add_resource`, with
symlink-normalized sources; the archive's destination paths are exactly the
manifest's; and each destination holds the bytes of its resolved source. -/
def C1Post (env : Env) (m : Manifest) (ar : Archive) : Prop :=
  (∃ b rm rr,
      (Pex.main env).builderAtBuild = some b ∧
      List.Forall₂ (Resolves env.fs env.fuel) m.modules rm ∧
      List.Forall₂ (Resolves env.fs env.fuel) m.resources rr ∧
      b.entries =
        rm.map (tagEntry Category.module) ++
          rr.map (tagEntry Category.resource)) ∧
  ar.map Prod.fst = m.modules.map Prod.fst ++ m.resources.map Prod.fst ∧
  (∀ d s, ((d, s) ∈ m.modules ∨ (d, s) ∈ m.resources) →
      ∃ rs bytes,
        dereference_symlinks env.fs env.fuel s = some rs ∧
        env.fs.contents rs = some bytes ∧
        assocLookup ar d = some bytes)

/-- A path that is not a symbolic link dereferences to itself under any
fuel: the `while` loop exits immediately. -/
theorem deref_of_not_islink (fs : FS) (p : PyStr) (h : islink fs p = false) :
    ∀ n, dereference_symlinks fs n p = some p := by
  intro n
  cases n <;> simp [dereference_symlinks, h]

/-- Whenever the loop finishes, the returned path is not a symbolic link:
that is the loop's exit condition. -/
theorem deref_some_not_islink (fs : FS) :
    ∀ (n : Nat) (p q : PyStr), dereference_symlinks fs n p = some q →
      islink fs q = false := by
  intro n
  induction n with
  | zero =>
    intro p q h
    by_cases hl : islink fs p
    · simp [dereference_symlinks, hl] at h
    · simp [dereference_symlinks, hl] at h
      simp [← h, hl]
  | succ n ih =>
    intro p q h
    by_cases hl : islink fs p
    · simp [dereference_symlinks, hl] at h
      exact ih _ _ h
    · simp [dereference_symlinks, hl] at h
      simp [← h, hl]

/-- All slashes are stripped exactly when the string is all slashes. -/
theorem rstripSlash_eq_nil (l : PyStr) :
    rstripSlash l = [] ↔ l.all (fun c => c = '/') = true := by
  induction l with
  | nil => simp [rstripSlash]
  | cons c rest ih =>
    simp only [rstripSlash, List.all_cons]
    by_cases h1 : rstripSlash rest = [] ∧ c = '/'
    · simp [h1.1, h1.2, ih.mp h1.1]
    · rw [if_neg h1]
      constructor
      · intro h; exact absurd h (List.cons_ne_nil _ _)
      · intro h
        simp only [Bool.and_eq_true, decide_eq_true_eq] at h
        exact absurd ⟨ih.mpr h.2, h.1⟩ h1

/-- The head part returned by `splitAtLastSlash` on an absolute path starts
with a slash. -/
theorem splitAtLastSlash_fst_abs (p : PyStr) (h : isabs p = true) :
    ∃ t, (splitAtLastSlash p).1 = '/' :: t := by
  cases p with
  | nil => simp [isabs] at h
  | cons c rest =>
    simp only [isabs, decide_eq_true_eq] at h
    subst h
    simp only [splitAtLastSlash]
    by_cases h1 : (splitAtLastSlash rest).1 = []
    · exact ⟨[], by simp [h1]⟩
    · exact ⟨(splitAtLastSlash rest).1, by simp [h1]⟩

/-- The dirname of an absolute path is absolute (in particular nonempty). -/
theorem isabs_dirname (p : PyStr) (h : isabs p = true) :
    isabs (dirname p) = true := by
  obtain ⟨t, ht⟩ := splitAtLastSlash_fst_abs p h
  unfold dirname
  rw [ht]
  by_cases h1 : ('/' :: t : PyStr) ≠ [] ∧ ¬ (('/' :: t : PyStr).all (fun c => c = '/'))
  · rw [if_pos h1]
    have hne : rstripSlash t ≠ [] := by
      intro habs
      have : (('/' :: t : PyStr).all (fun c => c = '/')) = true := by
        simp [List.all_cons, (rstripSlash_eq_nil t).mp habs]
      exact h1.2 this
    simp only [rstripSlash]
    rw [if_neg (by intro hc; exact hne hc.1)]
    simp [isabs]
  · rw [if_neg h1]
    simp [isabs]

/-- Appending anything to an absolute path keeps it absolute. -/
theorem isabs_append (a x : PyStr) (h : isabs a = true) :
    isabs (a ++ x) = true := by
  cases a with
  | nil => simp [isabs] at h
  | cons c t => simpa [isabs] using h

/-- Joining onto an absolute base yields an absolute path. -/
theorem isabs_pjoin (a b : PyStr) (h : isabs a = true) :
    isabs (pjoin a b) = true := by
  unfold pjoin
  by_cases hb : isabs b = true
  · simp [hb]
  · rw [if_neg (by simpa using hb)]
    by_cases h2 : a = [] ∨ a.getLast? = some '/'
    · rw [if_pos h2]; exact isabs_append a b h
    · rw [if_neg h2]; exact isabs_append a ('/' :: b) h

/-- One loop iteration preserves absoluteness of the path. -/
theorem isabs_linkStep (fs : FS) (p : PyStr) (h : isabs p = true) :
    isabs (linkStep fs p) = true := by
  unfold linkStep
  cases ht : fs.readlink p with
  | none => exact h
  | some target => exact isabs_pjoin _ _ (isabs_dirname p h)

/-- Every left element of a `Forall₂` pair has a related right element. -/
theorem forall₂_mem_left {α β : Type} {R : α → β → Prop} :
    ∀ {l : List α} {l2 : List β}, List.Forall₂ R l l2 →
      ∀ {a : α}, a ∈ l → ∃ b, b ∈ l2 ∧ R a b := by
  intro l l2 h
  induction h with
  | nil => intro a ha; cases ha
  | cons hr _ ih =>
    intro a ha
    rcases List.mem_cons.mp ha with rfl | ha2
    · exact ⟨_, List.mem_cons_self _ _, hr⟩
    · obtain ⟨b, hb, hrb⟩ := ih ha2
      exact ⟨b, List.mem_cons_of_mem _ hb, hrb⟩

/-- When the relation forces `g` of the right element to equal `f` of the
left one, `Forall₂` lists have equal images. -/
theorem forall₂_map_eq {α β γ : Type} {R : α → β → Prop}
    (f : α → γ) (g : β → γ) (hfg : ∀ a b, R a b → g b = f a) :
    ∀ {l : List α} {l2 : List β}, List.Forall₂ R l l2 →
      l2.map g = l.map f := by
  intro l l2 h
  induction h with
  | nil => rfl
  | cons hr _ ih => simp [ih, hfg _ _ hr]

/-- First-match lookup finds the unique pair with a given key in an archive
whose destination paths are distinct. -/
theorem assocLookup_eq_some (d : PyStr) (bytes : List Nat) :
    ∀ ar : Archive, (d, bytes) ∈ ar → (ar.map Prod.fst).Nodup →
      assocLookup ar d = some bytes := by
  intro ar
  induction ar with
  | nil => intro h _; cases h
  | cons hd rest ih =>
    intro hmem hnodup
    obtain ⟨d2, b2⟩ := hd
    simp only [List.map_cons, List.nodup_cons] at hnodup
    rcases List.mem_cons.mp hmem with heq | hmem2
    · injection heq with h1 h2
      subst h1
      subst h2
      simp [assocLookup]
    · have hd2 : d2 ≠ d := by
        intro h2
        subst h2
        exact hnodup.1 (List.mem_map.mpr ⟨(d2, bytes), hmem2, rfl⟩)
      simp only [assocLookup, if_neg hd2]
      exact ih hmem2 hnodup.2

/-- Both registration operations compute the same conditional: reject an
escaping destination, otherwise append the tagged entry. -/
theorem addCat_eq (cat : Category) (b : PEXBuilder) (src dst : PyStr) :
    addCat cat b src dst =
      if escapesRoot dst then none
      else some { b with entries := b.entries ++ [(cat, dst, src)] } := by
  cases cat <;> rfl

/-- Characterization of a successful registration loop: every manifest
entry resolves, and the builder gains exactly the resolved entries, tagged
with the loop's category, in manifest order; path, interpreter and metadata
are untouched. -/
theorem addEntries_ok (fs : FS) (fuel : Nat) (cat : Category) :
    ∀ (l : List (PyStr × PyStr)) (b b' : PEXBuilder),
      addEntries fs fuel cat b l = Except.ok b' →
      ∃ rl, List.Forall₂ (Resolves fs fuel) l rl ∧
        b'.path = b.path ∧ b'.interpreter = b.interpreter ∧
        b'.info = b.info ∧
        b'.entries = b.entries ++ rl.map (tagEntry cat) := by
  intro l
  induction l with
  | nil =>
    intro b b' h
    simp only [addEntries] at h
    cases h
    exact ⟨[], List.Forall₂.nil, rfl, rfl, rfl, by simp⟩
  | cons hd rest ih =>
    intro b b' h
    obtain ⟨dst, src⟩ := hd
    cases hd1 : dereference_symlinks fs fuel src with
    | none =>
      simp only [addEntries, hd1] at h
      exact Except.noConfusion h
    | some rsrc =>
      simp only [addEntries, hd1, addCat_eq] at h
      cases he : escapesRoot dst with
      | true =>
        simp only [he, if_true] at h
        exact Except.noConfusion h
      | false =>
        simp only [he, Bool.false_eq_true, if_false] at h
        obtain ⟨rl, hall, hpath, hint, hinfo, hentries⟩ := ih _ _ h
        refine ⟨(dst, rsrc) :: rl, List.Forall₂.cons ⟨rfl, hd1⟩ hall,
          hpath, hint, hinfo, ?_⟩
        rw [hentries]
        simp [tagEntry]

/-- Characterization of a successful run of both registration loops. -/
theorem registerAll_ok (env : Env) (m : Manifest) (b b' : PEXBuilder)
    (h : registerAll env m b = Except.ok b') :
    ∃ rm rr,
      List.Forall₂ (Resolves env.fs env.fuel) m.modules rm ∧
      List.Forall₂ (Resolves env.fs env.fuel) m.resources rr ∧
      b'.path = b.path ∧ b'.interpreter = b.interpreter ∧
      b'.info = b.info ∧
      b'.entries = b.entries ++ rm.map (tagEntry Category.module) ++
        rr.map (tagEntry Category.resource) := by
  unfold registerAll at h
  cases hm : addEntries env.fs env.fuel Category.module b m.modules with
  | error e => rw [hm] at h; cases h
  | ok b2 =>
    rw [hm] at h
    simp only at h
    obtain ⟨rm, hallm, hp2, hi2, hf2, he2⟩ := addEntries_ok _ _ _ _ _ _ hm
    obtain ⟨rr, hallr, hp3, hi3, hf3, he3⟩ := addEntries_ok _ _ _ _ _ _ h
    refine ⟨rm, rr, hallm, hallr, ?_, ?_, ?_, ?_⟩
    · rw [hp3, hp2]
    · rw [hi3, hi2]
    · rw [hf3, hf2]
    · rw [he3, he2, List.append_assoc]

/-- Characterization of a successful archive sealing: the archive pairs off
with the registered entries, destination for destination, bytes read from
each resolved source. -/
theorem readEntries_ok (fs : FS) :
    ∀ (es : List (Category × PyStr × PyStr)) (ar : Archive),
      readEntries fs es = some ar →
      List.Forall₂ (ReadsTo fs) es ar := by
  intro es
  induction es with
  | nil =>
    intro ar h
    simp only [readEntries] at h
    cases h
    exact List.Forall₂.nil
  | cons e rest ih =>
    intro ar h
    obtain ⟨cat, dst, src⟩ := e
    cases hc : fs.contents src with
    | none =>
      simp only [readEntries, hc] at h
      exact Option.noConfusion h
    | some bytes =>
      cases hr : readEntries fs rest with
      | none =>
        simp only [readEntries, hc, hr] at h
        exact Option.noConfusion h
      | some ar2 =>
        simp only [readEntries, hc, hr] at h
        cases h
        exact List.Forall₂.cons ⟨rfl, hc⟩ (ih _ hr)

/-- With `ignore_errors = True`, `shutil.rmtree` raises nothing, whether or
not the removal fails. -/
theorem shutil_rmtree_true (x : Bool) : shutil_rmtree true x = none := by
  simp [shutil_rmtree]

/-- Trichotomy of `main`: either exactly one positional argument is given
and the manifest parses, and the run is the body's run with the scratch
directory created and cleanup attempted; or the manifest fails to parse; or
the invocation is a usage error. -/
theorem main_cases (env : Env) :
    (env.args.length = 1 ∧ ∃ m, env.stdin_manifest = some m ∧
      Pex.main env = ⟨(mainBody env m).outcome, true, true,
        (mainBody env m).interpreterUsed, (mainBody env m).builderAtBuild⟩) ∨
    Pex.main env =
      ⟨Except.error PexError.manifestParse, false, false, none, none⟩ ∨
    Pex.main env = ⟨Except.error PexError.usage, false, false, none, none⟩ := by
  by_cases hargs : env.args.length = 1
  · cases hm : env.stdin_manifest with
    | none =>
      right; left
      simp [Pex.main, hargs, hm]
    | some m =>
      left
      refine ⟨hargs, m, rfl, ?_⟩
      simp [Pex.main, hargs, hm, try_finally, shutil_rmtree]
  · right; right
    simp [Pex.main, hargs]

/-- Characterization of a body run whose outcome is a sealed archive: the
interpreter introspection succeeded, both registration loops succeeded and
the builder at build time sealed exactly its entries into the archive. -/
theorem mainBody_ok (env : Env) (m : Manifest) (ar : Archive)
    (h : (mainBody env m).outcome = Except.ok ar) :
    ∃ ident b4,
      env.from_binary (parse_options env).python = some ident ∧
      registerAll env m (initialBuilder env (mkInterpreter env ident)) =
        Except.ok b4 ∧
      b4.build env.fs = some ar ∧
      (mainBody env m).builderAtBuild = some b4 := by
  cases hfb : env.from_binary (parse_options env).python with
  | none =>
    simp only [mainBody, hfb] at h
    exact Except.noConfusion h
  | some ident =>
    cases hreg : registerAll env m (initialBuilder env (mkInterpreter env ident)) with
    | error e =>
      simp only [mainBody, hfb, hreg] at h
      exact Except.noConfusion h
    | ok b4 =>
      cases hb : b4.build env.fs with
      | none =>
        simp only [mainBody, hfb, hreg, hb] at h
        exact Except.noConfusion h
      | some ar2 =>
        simp only [mainBody, hfb, hreg, hb, Except.ok.injEq] at h
        subst h
        exact ⟨ident, b4, rfl, hreg, hb, by simp only [mainBody, hfb, hreg, hb]⟩

/-- Characterization of a body run that reaches the build step: the builder
handed to `build` carries the metadata set at pex.py lines 79-82. -/
theorem mainBody_builder (env : Env) (m : Manifest) (b : PEXBuilder)
    (h : (mainBody env m).builderAtBuild = some b) :
    b.info = ⟨true, (parse_options env).entry_point⟩ := by
  cases hfb : env.from_binary (parse_options env).python with
  | none =>
    simp only [mainBody, hfb] at h
    exact Option.noConfusion h
  | some ident =>
    cases hreg : registerAll env m (initialBuilder env (mkInterpreter env ident)) with
    | error e =>
      simp only [mainBody, hfb, hreg] at h
      exact Option.noConfusion h
    | ok b4 =>
      obtain ⟨_, _, _, _, _, _, hinfo, _⟩ := registerAll_ok _ _ _ _ hreg
      have hb4 : b = b4 := by
        cases hb : b4.build env.fs with
        | none =>
          simp only [mainBody, hfb, hreg, hb, Option.some.injEq] at h
          exact h.symm
        | some ar =>
          simp only [mainBody, hfb, hreg, hb, Option.some.injEq] at h
          exact h.symm
      rw [hb4, hinfo]
      rfl

/-- Characterization of any body run in which an interpreter descriptor was
handed to the builder: it is exactly the one `mkInterpreter` builds from a
successful introspection of the configured python binary. -/
theorem mainBody_interp (env : Env) (m : Manifest) (i : PythonInterpreter)
    (h : (mainBody env m).interpreterUsed = some i) :
    ∃ ident, env.from_binary (parse_options env).python = some ident ∧
      i = mkInterpreter env ident := by
  cases hfb : env.from_binary (parse_options env).python with
  | none =>
    simp only [mainBody, hfb] at h
    exact Option.noConfusion h
  | some ident =>
    refine ⟨ident, rfl, ?_⟩
    cases hreg : registerAll env m (initialBuilder env (mkInterpreter env ident)) with
    | error e =>
      simp only [mainBody, hfb, hreg, Option.some.injEq] at h
      exact h.symm
    | ok b4 =>
      cases hb : b4.build env.fs with
      | none =>
        simp only [mainBody, hfb, hreg, hb, Option.some.injEq] at h
        exact h.symm
      | some ar =>
        simp only [mainBody, hfb, hreg, hb, Option.some.injEq] at h
        exact h.symm

/-- C2: for a source path whose final component forms a finite chain of
`N ≥ 0` symbolic links, `dereference_symlinks` returns the result of `N`
applications of the loop body — replacing the final component by its link
target joined against the containing directory (`linkStep` touches no
intermediate directory component); for `N = 0` the input is returned
unchanged. -/
theorem c2_leaf_chain_resolution (fs : FS) :
    ∀ (N : Nat) (src : PyStr),
      (∀ i, i < N → islink fs ((linkStep fs)^[i] src) = true) →
      islink fs ((linkStep fs)^[N] src) = false →
      ∀ fuel, N ≤ fuel →
        dereference_symlinks fs fuel src = some ((linkStep fs)^[N] src) := by
  intro N
  induction N with
  | zero =>
    intro src _ hstop fuel _
    simp only [Function.iterate_zero_apply] at hstop ⊢
    exact deref_of_not_islink fs src hstop fuel
  | succ N ih =>
    intro src hchain hstop fuel hfuel
    cases fuel with
    | zero => omega
    | succ f =>
      have h0 : islink fs src = true := by
        have := hchain 0 (Nat.succ_pos N)
        simpa using this
      simp only [dereference_symlinks, h0, if_true]
      have hchain2 : ∀ i, i < N →
          islink fs ((linkStep fs)^[i] (linkStep fs src)) = true := by
        intro i hi
        have := hchain (i + 1) (Nat.succ_lt_succ hi)
        rwa [Function.iterate_succ_apply] at this
      have hstop2 : islink fs ((linkStep fs)^[N] (linkStep fs src)) = false := by
        rwa [Function.iterate_succ_apply] at hstop
      rw [ih (linkStep fs src) hchain2 hstop2 f (Nat.le_of_succ_le_succ hfuel),
        Function.iterate_succ_apply]

/-- C2 witness: on the concrete two-link chain `a -> b -> c`, dereferencing
with fuel 5 yields the second iterate of the loop body, i.e. `c`. -/
theorem c2_leaf_chain_resolution_witness :
    (∀ i, i < 2 → islink fsChain ((linkStep fsChain)^[i] (str "a")) = true) ∧
    islink fsChain ((linkStep fsChain)^[2] (str "a")) = false ∧
    dereference_symlinks fsChain 5 (str "a") =
      some ((linkStep fsChain)^[2] (str "a")) := by
  refine ⟨?_, rfl, ?_⟩
  · intro i hi
    interval_cases i <;> rfl
  · exact c2_leaf_chain_resolution fsChain 2 (str "a")
      (fun i hi => by interval_cases i <;> rfl) rfl 5 (by norm_num)

/-- C3: the code does NOT terminate on a cyclic leaf symlink chain.  On the
filesystem where `a` links to itself, the loop never exits: for every fuel
bound the fuel-indexed embedding reports the loop still running, so the
claimed `CyclicSymlinkError` (or any cap on iterations) does not exist in
the code. -/
theorem c3_cyclic_chain_diverges :
    ∀ fuel, dereference_symlinks fsLoop fuel (str "a") = none := by
  intro fuel
  induction fuel with
  | zero => rfl
  | succ f ih =>
    have hstep : linkStep fsLoop (str "a") = str "a" := rfl
    have hl : islink fsLoop (str "a") = true := rfl
    simp only [dereference_symlinks, hl, if_true, hstep]
    exact ih

/-- C5: with zero or more than one positional argument, `parser.error`
aborts the run: the outcome is a usage error with non-zero exit status, no
scratch workspace is created, cleanup is never reached, no interpreter or
builder is constructed and no archive is produced. -/
theorem c5_usage_error (env : Env) (h : env.args.length ≠ 1) :
    Pex.main env =
      ⟨Except.error PexError.usage, false, false, none, none⟩ ∧
    exitCode (Pex.main env).outcome ≠ 0 := by
  have hmain : Pex.main env =
      ⟨Except.error PexError.usage, false, false, none, none⟩ := by
    simp [Pex.main, h]
  refine ⟨hmain, ?_⟩
  rw [hmain]
  simp [exitCode]

/-- C5 witness: the conclusion holds concretely both for an invocation with
no positional argument and for one with two. -/
theorem c5_usage_error_witness :
    (env5a.args.length ≠ 1 ∧
      Pex.main env5a =
        ⟨Except.error PexError.usage, false, false, none, none⟩ ∧
      exitCode (Pex.main env5a).outcome ≠ 0) ∧
    (env5b.args.length ≠ 1 ∧
      Pex.main env5b =
        ⟨Except.error PexError.usage, false, false, none, none⟩ ∧
      exitCode (Pex.main env5b).outcome ≠ 0) :=
  ⟨⟨by decide, c5_usage_error env5a (by decide)⟩,
   ⟨by decide, c5_usage_error env5b (by decide)⟩⟩

/-- C6: both entry-registration operations reject a destination path that
escapes the workspace root via `..` traversal, for every builder state and
source path. -/
theorem c6_traversal_rejected (b : PEXBuilder) (src dst : PyStr)
    (h : escapesRoot dst = true) :
    b.add_source src dst = none ∧ b.add_resource src dst = none := by
  constructor <;> simp [PEXBuilder.add_source, PEXBuilder.add_resource, h]

/-- C6 witness: the concrete destination `../evil` escapes the root and is
rejected by both operations on a fresh builder. -/
theorem c6_traversal_rejected_witness :
    escapesRoot (str "../evil") = true ∧
    (PEXBuilder.create (str "/w") interp0).add_source
      (str "/x") (str "../evil") = none ∧
    (PEXBuilder.create (str "/w") interp0).add_resource
      (str "/x") (str "../evil") = none :=
  ⟨rfl, c6_traversal_rejected _ _ _ rfl⟩

/-- C9 counterexample: the claim that every result of
`dereference_symlinks` is absolute is false — on a filesystem with no
links, the relative input `foo` is returned unchanged and is not
absolute. -/
theorem c9_counterexample :
    dereference_symlinks fsEmpty 3 (str "foo") = some (str "foo") ∧
    isabs (str "foo") = false :=
  ⟨rfl, rfl⟩

/-- C9 amended: when the input source path is absolute, the path
`dereference_symlinks` returns is absolute (each loop iteration preserves
absoluteness); a relative input can come back relative. -/
theorem c9_amended_abs_preserved (fs : FS) :
    ∀ (fuel : Nat) (src out : PyStr), isabs src = true →
      dereference_symlinks fs fuel src = some out → isabs out = true := by
  intro fuel
  induction fuel with
  | zero =>
    intro src out habs h
    by_cases hl : islink fs src
    · simp [dereference_symlinks, hl] at h
    · simp only [dereference_symlinks, hl, Bool.false_eq_true, if_false,
        Option.some.injEq] at h
      rwa [← h]
  | succ f ih =>
    intro src out habs h
    by_cases hl : islink fs src
    · simp only [dereference_symlinks, hl, if_true] at h
      exact ih _ _ (isabs_linkStep fs src habs) h
    · simp only [dereference_symlinks, hl, Bool.false_eq_true, if_false,
        Option.some.injEq] at h
      rwa [← h]

/-- C9 amended witness: the absolute leaf-symlink chain `/s/a` resolves to
the absolute path `/t/c`. -/
theorem c9_amended_abs_preserved_witness :
    isabs (str "/s/a") = true ∧
    dereference_symlinks fs1 5 (str "/s/a") = some (str "/t/c") ∧
    isabs (str "/t/c") = true :=
  ⟨rfl, rfl, c9_amended_abs_preserved fs1 5 (str "/s/a") (str "/t/c") rfl rfl⟩

/-- C10: whenever `dereference_symlinks` terminates, its result is not a
symbolic link (the loop's exit condition), so dereferencing again under any
fuel returns the result unchanged: the operation is idempotent. -/
theorem c10_result_not_link_idempotent (fs : FS) (fuel : Nat) (p q : PyStr)
    (h : dereference_symlinks fs fuel p = some q) :
    islink fs q = false ∧
    ∀ fuel2, dereference_symlinks fs fuel2 q = some q := by
  have hq := deref_some_not_islink fs fuel p q h
  exact ⟨hq, deref_of_not_islink fs q hq⟩

/-- C10 witness: the chain `/s/a` resolves to `/t/c`, which is not a link
and is a fixed point of dereferencing at every fuel. -/
theorem c10_result_not_link_idempotent_witness :
    dereference_symlinks fs1 5 (str "/s/a") = some (str "/t/c") ∧
    (islink fs1 (str "/t/c") = false ∧
      ∀ fuel2, dereference_symlinks fs1 fuel2 (str "/t/c") =
        some (str "/t/c")) :=
  ⟨rfl, c10_result_not_link_idempotent fs1 5 (str "/s/a") (str "/t/c") rfl⟩

/-- C4: whenever a run creates the scratch workspace (equivalently, gets
past argument checking and manifest parsing), the `finally` clause attempts
its removal, and because `rmtree` is called with `ignore_errors = True` the
primary outcome is identical whether or not the removal fails: cleanup
failure never replaces or masks the build result. -/
theorem c4_cleanup_always (env : Env)
    (h : (Pex.main env).scratchCreated = true) :
    (Pex.main env).cleanupAttempted = true ∧
    ∀ x : Bool,
      (Pex.main { env with rmtree_fails := x }).outcome =
        (Pex.main env).outcome ∧
      (Pex.main { env with rmtree_fails := x }).cleanupAttempted = true := by
  obtain ⟨args, cep, cp, se, sm, fs0, fb, fp, td, rf, fl⟩ := env
  by_cases hargs : args.length = 1
  · cases sm with
    | none => simp [Pex.main, hargs] at h
    | some m =>
      refine ⟨by simp [Pex.main, hargs], fun x => ⟨?_, ?_⟩⟩
      · simp only [Pex.main, hargs, if_true, shutil_rmtree_true, try_finally]
        rfl
      · simp [Pex.main, hargs]
  · simp [Pex.main, hargs] at h

/-- C4 witness: the concrete successful run over `env1` creates the scratch
workspace, attempts cleanup, and its outcome is unchanged under a failing
removal. -/
theorem c4_cleanup_always_witness :
    (Pex.main env1).scratchCreated = true ∧
    ((Pex.main env1).cleanupAttempted = true ∧
      ∀ x : Bool,
        (Pex.main { env1 with rmtree_fails := x }).outcome =
          (Pex.main env1).outcome ∧
        (Pex.main { env1 with rmtree_fails := x }).cleanupAttempted = true) :=
  ⟨rfl, c4_cleanup_always env1 rfl⟩

/-- C7: in every run that reaches the build step, the builder invoked holds
`zip_safe = true` and the entry point from `--entry-point`, defaulting to
`__main__`; both were set before `build` was called. -/
theorem c7_metadata_before_build (env : Env) (b : PEXBuilder)
    (h : (Pex.main env).builderAtBuild = some b) :
    b.info.zip_safe = true ∧
    b.info.entry_point = env.cli_entry_point.getD (str "__main__") := by
  rcases main_cases env with ⟨hargs, m, hm, hmain⟩ | hmain | hmain
  · rw [hmain] at h
    have hinfo := mainBody_builder env m b h
    rw [hinfo]
    exact ⟨rfl, rfl⟩
  · rw [hmain] at h
    exact Option.noConfusion h
  · rw [hmain] at h
    exact Option.noConfusion h

/-- C7 witness: the concrete run over `env1` reaches the build step with
`builder1`, whose metadata is zip-safe with the default entry point. -/
theorem c7_metadata_before_build_witness :
    (Pex.main env1).builderAtBuild = some builder1 ∧
    (builder1.info.zip_safe = true ∧
      builder1.info.entry_point = env1.cli_entry_point.getD (str "__main__")) :=
  ⟨rfl, c7_metadata_before_build env1 builder1 rfl⟩

/-- C8: the interpreter descriptor handed to the archive builder has
executable path equal to `--python` (defaulting to the running
interpreter), identity obtained by introspecting that binary, and an
extras table mapping exactly `('setuptools', '1.0')` to
`third-party/py/setuptools` under the repository root. -/
theorem c8_interpreter_descriptor (env : Env) (i : PythonInterpreter)
    (h : (Pex.main env).interpreterUsed = some i) :
    i.binary = env.cli_python.getD env.sys_executable ∧
    env.from_binary i.binary = some i.identity ∧
    i.extras = [((str "setuptools", str "1.0"),
      pjoin (BUCK_ROOT env.file_path) (str "third-party/py/setuptools"))] := by
  rcases main_cases env with ⟨hargs, m, hm, hmain⟩ | hmain | hmain
  · rw [hmain] at h
    obtain ⟨ident, hfb, hi⟩ := mainBody_interp env m i h
    subst hi
    exact ⟨rfl, hfb, rfl⟩
  · rw [hmain] at h
    exact Option.noConfusion h
  · rw [hmain] at h
    exact Option.noConfusion h

/-- C8 witness: the concrete run over `env1` constructs exactly `interp1`,
whose fields satisfy the descriptor contract. -/
theorem c8_interpreter_descriptor_witness :
    (Pex.main env1).interpreterUsed = some interp1 ∧
    (interp1.binary = env1.cli_python.getD env1.sys_executable ∧
      env1.from_binary interp1.binary = some interp1.identity ∧
      interp1.extras = [((str "setuptools", str "1.0"),
        pjoin (BUCK_ROOT env1.file_path) (str "third-party/py/setuptools"))]) :=
  ⟨rfl, c8_interpreter_descriptor env1 interp1 rfl⟩

/-- C1: for a successful run over a manifest whose module and resource
destination sets are disjoint, non-empty and duplicate-free, the builder at
build time registered exactly the manifest's destination paths — modules
via `add_source`, resources via `add_resource`, each source first
symlink-normalized — and the sealed archive contains exactly those
destination paths, each holding the bytes of its resolved source. -/
theorem c1_successful_build (env : Env) (m : Manifest) (ar : Archive)
    (hm : env.stdin_manifest = some m)
    (hne_mod : m.modules ≠ [])
    (hne_res : m.resources ≠ [])
    (hnod_mod : (m.modules.map Prod.fst).Nodup)
    (hnod_res : (m.resources.map Prod.fst).Nodup)
    (hdisj : ∀ d ∈ m.modules.map Prod.fst, d ∉ m.resources.map Prod.fst)
    (hok : (Pex.main env).outcome = Except.ok ar) :
    C1Post env m ar := by
  rcases main_cases env with ⟨hargs, m2, hm2, hmain⟩ | hmain | hmain
  · rw [hm] at hm2
    injection hm2 with hm2
    subst hm2
    rw [hmain] at hok
    obtain ⟨ident, b4, hfb, hreg, hb, hbuild⟩ := mainBody_ok env m ar hok
    obtain ⟨rm, rr, hallm, hallr, hp, hi, hf, he⟩ :=
      registerAll_ok _ _ _ _ hreg
    have hinit : (initialBuilder env (mkInterpreter env ident)).entries = [] :=
      rfl
    rw [hinit, List.nil_append] at he
    have hread := readEntries_ok env.fs b4.entries ar hb
    have hfst : ar.map Prod.fst =
        m.modules.map Prod.fst ++ m.resources.map Prod.fst := by
      have h1 : ar.map Prod.fst =
          b4.entries.map (fun e => e.2.1) :=
        forall₂_map_eq (fun e => e.2.1) Prod.fst (fun e a hra => hra.1) hread
      have h2 : rm.map Prod.fst = m.modules.map Prod.fst :=
        forall₂_map_eq Prod.fst Prod.fst (fun p q hr => hr.1) hallm
      have h3 : rr.map Prod.fst = m.resources.map Prod.fst :=
        forall₂_map_eq Prod.fst Prod.fst (fun p q hr => hr.1) hallr
      rw [h1, he]
      simp only [List.map_append, List.map_map]
      rw [← h2, ← h3]
      rfl
    have hnodar : (ar.map Prod.fst).Nodup := by
      rw [hfst]
      exact List.nodup_append.mpr
        ⟨hnod_mod, hnod_res, fun a ha hb2 => hdisj a ha hb2⟩
    refine ⟨⟨b4, rm, rr, ?_, hallm, hallr, he⟩, hfst, ?_⟩
    · rw [hmain]
      exact hbuild
    · intro d s hds
      rcases hds with hmod | hres
      · obtain ⟨q, hqmem, hq⟩ := forall₂_mem_left hallm hmod
        obtain ⟨q1, q2⟩ := q
        obtain ⟨hq1, hq2⟩ := hq
        have hq1e : q1 = d := hq1
        have hq2e : dereference_symlinks env.fs env.fuel s = some q2 := hq2
        rw [hq1e] at hqmem
        have hent : (Category.module, d, q2) ∈ b4.entries := by
          rw [he]
          exact List.mem_append_left _
            (List.mem_map.mpr ⟨(d, q2), hqmem, rfl⟩)
        obtain ⟨a, hamem, ra⟩ := forall₂_mem_left hread hent
        obtain ⟨a1, a2⟩ := a
        obtain ⟨ra1, ra2⟩ := ra
        have ra1e : a1 = d := ra1
        have ra2e : env.fs.contents q2 = some a2 := ra2
        rw [ra1e] at hamem
        exact ⟨q2, a2, hq2e, ra2e, assocLookup_eq_some d a2 ar hamem hnodar⟩
      · obtain ⟨q, hqmem, hq⟩ := forall₂_mem_left hallr hres
        obtain ⟨q1, q2⟩ := q
        obtain ⟨hq1, hq2⟩ := hq
        have hq1e : q1 = d := hq1
        have hq2e : dereference_symlinks env.fs env.fuel s = some q2 := hq2
        rw [hq1e] at hqmem
        have hent : (Category.resource, d, q2) ∈ b4.entries := by
          rw [he]
          exact List.mem_append_right _
            (List.mem_map.mpr ⟨(d, q2), hqmem, rfl⟩)
        obtain ⟨a, hamem, ra⟩ := forall₂_mem_left hread hent
        obtain ⟨a1, a2⟩ := a
        obtain ⟨ra1, ra2⟩ := ra
        have ra1e : a1 = d := ra1
        have ra2e : env.fs.contents q2 = some a2 := ra2
        rw [ra1e] at hamem
        exact ⟨q2, a2, hq2e, ra2e, assocLookup_eq_some d a2 ar hamem hnodar⟩
  · rw [hmain] at hok
    exact Except.noConfusion hok
  · rw [hmain] at hok
    exact Except.noConfusion hok

/-- C1 witness: the concrete run over `env1` with `manifest1` (one module
behind a symlink chain, one resource, disjoint non-empty destination sets)
succeeds and produces `archive1`, which satisfies the full postcondition. -/
theorem c1_successful_build_witness :
    (env1.stdin_manifest = some manifest1 ∧
      manifest1.modules ≠ [] ∧
      manifest1.resources ≠ [] ∧
      (Pex.main env1).outcome = Except.ok archive1) ∧
    C1Post env1 manifest1 archive1 :=
  ⟨⟨rfl, by decide, by decide, rfl⟩,
   c1_successful_build env1 manifest1 archive1 rfl (by decide) (by decide)
     (by decide) (by decide) (by decide) rfl⟩
